import Mathlib

/-
Verification development for pandas.stats.moments (rolling and
exponentially-weighted statistical moments).

Modelling conventions:
* A float array cell is `Option ℚ`: `none` is the missing marker (IEEE NaN).
  The library treats NaN as missing throughout; `kill_inf` converts
  infinities to NaN on entry, and the claims under study never distinguish
  an infinite output from NaN, so non-finite results of arithmetic
  (division by zero) are also modelled as `none`.
* Exact rational arithmetic stands in for IEEE doubles (no rounding);
  `ratSqrt` is the exact square root where one exists (every theorem below
  that inspects a square root only evaluates it at perfect squares, or uses
  it opaquely on both sides of an equation).
* Python exceptions (`raise Exception`, `ZeroDivisionError`, `TypeError`,
  numpy broadcast `ValueError`) are `Except PdErr`.  numpy length-1
  broadcasting is not modelled: binary array ops require equal lengths.
* The Cython kernels in `pandas._tseries` (roll_sum, roll_mean, roll_var,
  roll_skew, roll_kurt, roll_max, roll_min, roll_median, roll_quantile,
  roll_generic, ewma) are not part of the source under study; they are
  modelled from the spec (each such definition is marked
  `Modelled from the spec`).  Everything else is translated line by line
  from pandas/stats/moments.py.
-/

/-- Errors raised by the library: mutually exclusive com/span, missing
com/span, operand type/shape mismatch (numpy broadcast failure or
type check in `_prep_binary`), Python scalar division by zero, and the
TypeError from arithmetic on `None`. -/
inductive PdErr where
  | comAndSpan
  | missingComSpan
  | shapeMismatch
  | zeroDiv
  | noneArith
  deriving DecidableEq, Repr

/-- A numeric column: list of cells, `none` = NaN/missing. -/
abbrev Col := List (Option ℚ)

/-- IEEE addition on cells: NaN propagates. -/
def v_add : Option ℚ → Option ℚ → Option ℚ
  | some a, some b => some (a + b)
  | _, _ => none

/-- IEEE subtraction on cells: NaN propagates. -/
def v_sub : Option ℚ → Option ℚ → Option ℚ
  | some a, some b => some (a - b)
  | _, _ => none

/-- IEEE multiplication on cells: NaN propagates (0 * NaN = NaN). -/
def v_mul : Option ℚ → Option ℚ → Option ℚ
  | some a, some b => some (a * b)
  | _, _ => none

/-- IEEE division on cells: NaN propagates; division by zero yields a
non-finite value, modelled as the missing marker (see header). -/
def v_div : Option ℚ → Option ℚ → Option ℚ
  | some a, some b => if b = 0 then none else some (a / b)
  | _, _ => none

/-- Exact square root of a rational where one exists (junk on
non-squares; only ever inspected at perfect squares, see header). -/
def ratSqrt (q : ℚ) : ℚ :=
  (Nat.sqrt q.num.toNat : ℚ) / (Nat.sqrt q.den : ℚ)

/-- np.sqrt on a cell: NaN propagates, negative arguments give NaN. -/
def npsqrt : Option ℚ → Option ℚ
  | none => none
  | some q => if q < 0 then none else some (ratSqrt q)

/-- Elementwise column addition (numpy `+`). -/
def ladd (a b : Col) : Col := List.zipWith v_add a b

/-- Elementwise column subtraction (numpy `-`). -/
def lsub (a b : Col) : Col := List.zipWith v_sub a b

/-- Elementwise column multiplication (numpy `*`). -/
def lmul (a b : Col) : Col := List.zipWith v_mul a b

/-- Elementwise column division (numpy `/`). -/
def ldiv (a b : Col) : Col := List.zipWith v_div a b

/-- Multiply a column elementwise by a scalar (numpy `arr * k`). -/
def lscale (k : ℚ) (a : Col) : Col := a.map (fun x => v_mul x (some k))

/-- The trailing window of width `w` ending at position `i`:
elements at indices `max 0 (i-w+1) .. i`. -/
def windowSlice (xs : Col) (i w : ℕ) : Col :=
  (xs.take (i + 1)).drop (i + 1 - w)

/-- The non-missing values of a column, in order. -/
def validVals (xs : Col) : List ℚ := xs.filterMap id

/-- Number of non-missing values of a column. -/
def validCount (xs : Col) : ℕ := (validVals xs).length

/-- Sum of the non-missing values. -/
def validSum (xs : Col) : ℚ := (validVals xs).sum

/-- Insert into an ascending-sorted list. -/
def insertSorted (x : ℚ) : List ℚ → List ℚ
  | [] => [x]
  | y :: ys => if x ≤ y then x :: y :: ys else y :: insertSorted x ys

/-- Ascending insertion sort (order-statistics structure of the spec). -/
def sortAsc (l : List ℚ) : List ℚ := l.foldr insertSorted []

/-- Mean of a list of rationals (junk 0/0 = 0 on the empty list; callers
gate on nonemptiness). -/
def listMean (l : List ℚ) : ℚ := l.sum / (l.length : ℚ)

/-- k-th central power sum Σ (x - mean)^k. -/
def centralPow (l : List ℚ) (k : ℕ) : ℚ :=
  (l.map (fun x => (x - listMean l) ^ k)).sum

/-- Modelled from the spec: Cython `_tseries.roll_sum`.  `y[i]` is the sum
of the non-missing values in the trailing window of width `win` ending at
`i`; missing when the non-missing count is below `minp`. -/
def roll_sum (xs : Col) (win minp : ℕ) : Col :=
  (List.range xs.length).map (fun i =>
    let w := windowSlice xs i win
    if validCount w < minp then none else some (validSum w))

/-- Modelled from the spec: Cython `_tseries.roll_mean`.  Mean of the
non-missing window values, missing below `minp` or on an empty sample
(0/0 is NaN). -/
def roll_mean (xs : Col) (win minp : ℕ) : Col :=
  (List.range xs.length).map (fun i =>
    let w := windowSlice xs i win
    if validCount w < minp ∨ validCount w = 0 then none
    else some (listMean (validVals w)))

/-- Modelled from the spec: Cython `_tseries.roll_var`.  Unbiased variance
`(Σx² - (Σx)²/c) / (c-1)` over the non-missing window values; missing
below `minp` and whenever fewer than 2 valid points remain. -/
def roll_var (xs : Col) (win minp : ℕ) : Col :=
  (List.range xs.length).map (fun i =>
    let w := windowSlice xs i win
    let c := validCount w
    if c < minp ∨ c < 2 then none
    else
      let v := validVals w
      some (((v.map (fun x => x ^ 2)).sum - (v.sum) ^ 2 / (c : ℚ)) / ((c : ℚ) - 1)))

/-- Modelled from the spec: Cython `_tseries.roll_skew`.  Bias-corrected
sample skewness `sqrt(c(c-1))/(c-2) · m3/m2^(3/2)`; requires at least 3
valid points (and `minp`). -/
def roll_skew (xs : Col) (win minp : ℕ) : Col :=
  (List.range xs.length).map (fun i =>
    let w := windowSlice xs i win
    let c := validCount w
    if c < minp ∨ c < 3 then none
    else
      let v := validVals w
      let m2 := centralPow v 2 / (c : ℚ)
      let m3 := centralPow v 3 / (c : ℚ)
      some ((ratSqrt ((c : ℚ) * ((c : ℚ) - 1)) / ((c : ℚ) - 2)) * (m3 / ratSqrt (m2 ^ 3))))

/-- Modelled from the spec: Cython `_tseries.roll_kurt`.  Bias-corrected
sample excess kurtosis; requires at least 4 valid points (and `minp`). -/
def roll_kurt (xs : Col) (win minp : ℕ) : Col :=
  (List.range xs.length).map (fun i =>
    let w := windowSlice xs i win
    let c := validCount w
    if c < minp ∨ c < 4 then none
    else
      let v := validVals w
      let m2 := centralPow v 2
      let m4 := centralPow v 4
      some ((((c : ℚ) + 1) * (c : ℚ) * ((c : ℚ) - 1) * m4) /
              (((c : ℚ) - 2) * ((c : ℚ) - 3) * m2 ^ 2)
            - 3 * ((c : ℚ) - 1) ^ 2 / (((c : ℚ) - 2) * ((c : ℚ) - 3))))

/-- Modelled from the spec: Cython `_tseries.roll_max`.  Maximum of the
non-missing window values; missing below `minp` or on an empty sample. -/
def roll_max (xs : Col) (win minp : ℕ) : Col :=
  (List.range xs.length).map (fun i =>
    let w := windowSlice xs i win
    match validVals w with
    | [] => none
    | v :: vs => if validCount w < minp then none else some (vs.foldl max v))

/-- Modelled from the spec: Cython `_tseries.roll_min`. -/
def roll_min (xs : Col) (win minp : ℕ) : Col :=
  (List.range xs.length).map (fun i =>
    let w := windowSlice xs i win
    match validVals w with
    | [] => none
    | v :: vs => if validCount w < minp then none else some (vs.foldl min v))

/-- Modelled from the spec: Cython `_tseries.roll_quantile`.  Linear
interpolation between the bracketing order statistics at
`rank = q·(c-1)`; missing below `minp` or on an empty sample. -/
def roll_quantile_kernel (xs : Col) (win minp : ℕ) (q : ℚ) : Col :=
  (List.range xs.length).map (fun i =>
    let w := windowSlice xs i win
    let c := validCount w
    if c < minp ∨ c = 0 then none
    else
      let s := sortAsc (validVals w)
      let rank := q * ((c : ℚ) - 1)
      let lo := (Rat.floor rank).toNat
      let hi := (Rat.ceil rank).toNat
      let vlo := s.getD lo 0
      let vhi := s.getD hi 0
      some (vlo + (rank - (lo : ℚ)) * (vhi - vlo)))

/-- Modelled from the spec: Cython `_tseries.roll_median_cython`, realised
as the interpolated 1/2 quantile of the window order statistics. -/
def roll_median (xs : Col) (win minp : ℕ) : Col :=
  roll_quantile_kernel xs win minp (1 / 2)

/-- Modelled from the spec: Cython `_tseries.roll_generic`.  Applies the
opaque user reducer to the raw window slice; missing below `minp`. -/
def roll_generic (xs : Col) (win minp : ℕ) (f : Col → Option ℚ) : Col :=
  (List.range xs.length).map (fun i =>
    let w := windowSlice xs i win
    if validCount w < minp then none else f w)

/-- Source `_use_window`: an unset `min_periods` defaults to the window. -/
def _use_window (minp : Option ℕ) (window : ℕ) : ℕ :=
  match minp with
  | none => window
  | some m => m

/-- Source `_require_min_periods p`: an unset `min_periods` defaults to
the window; a set one is raised to the statistic-specific floor `p`. -/
def _require_min_periods (p : ℕ) (minp : Option ℕ) (window : ℕ) : ℕ :=
  match minp with
  | none => window
  | some m => max p m

/-- Source `rolling_sum` on one raw column: kernel with `_use_window`. -/
def rolling_sum (xs : Col) (window : ℕ) (minp : Option ℕ) : Col :=
  roll_sum xs window (_use_window minp window)

/-- Source `rolling_mean` on one raw column. -/
def rolling_mean (xs : Col) (window : ℕ) (minp : Option ℕ) : Col :=
  roll_mean xs window (_use_window minp window)

/-- Source `rolling_max` on one raw column. -/
def rolling_max (xs : Col) (window : ℕ) (minp : Option ℕ) : Col :=
  roll_max xs window (_use_window minp window)

/-- Source `rolling_min` on one raw column. -/
def rolling_min (xs : Col) (window : ℕ) (minp : Option ℕ) : Col :=
  roll_min xs window (_use_window minp window)

/-- Source `rolling_median` on one raw column. -/
def rolling_median (xs : Col) (window : ℕ) (minp : Option ℕ) : Col :=
  roll_median xs window (_use_window minp window)

/-- Source `rolling_var` on one raw column: kernel with
`_require_min_periods 2`. -/
def rolling_var (xs : Col) (window : ℕ) (minp : Option ℕ) : Col :=
  roll_var xs window (_require_min_periods 2 minp window)

/-- Source `rolling_std` on one raw column: `np.sqrt(roll_var(...))` with
`_require_min_periods 2`. -/
def rolling_std (xs : Col) (window : ℕ) (minp : Option ℕ) : Col :=
  (roll_var xs window (_require_min_periods 2 minp window)).map npsqrt

/-- Source `rolling_skew` on one raw column: `_require_min_periods 3`. -/
def rolling_skew (xs : Col) (window : ℕ) (minp : Option ℕ) : Col :=
  roll_skew xs window (_require_min_periods 3 minp window)

/-- Source `rolling_kurt` on one raw column: `_require_min_periods 4`. -/
def rolling_kurt (xs : Col) (window : ℕ) (minp : Option ℕ) : Col :=
  roll_kurt xs window (_require_min_periods 4 minp window)

/-- Source `rolling_quantile` on one raw column: `_use_window`. -/
def rolling_quantile (xs : Col) (window : ℕ) (q : ℚ) (minp : Option ℕ) : Col :=
  roll_quantile_kernel xs window (_use_window minp window) q

/-- Source `rolling_apply` on one raw column: `_use_window`. -/
def rolling_apply (xs : Col) (window : ℕ) (f : Col → Option ℚ) (minp : Option ℕ) : Col :=
  roll_generic xs window (_use_window minp window) f

/-- Source `rolling_count` on one raw column: clamp the window to the
input length, mark valid cells as 1.0 and the rest as 0.0, rolling-sum
with `min_periods=1`, then replace NaN results with 0. -/
def rolling_count (xs : Col) (window : ℕ) : Col :=
  let window2 := min window xs.length
  let converted : Col := xs.map (fun x => some (if x.isSome then (1 : ℚ) else 0))
  let result := rolling_sum converted window2 (some 1)
  result.map (fun r => some (r.getD 0))

/-- Source `_prep_binary`: each side is perturbed by adding zero times the
other (`X = arg1 + 0*arg2`, `Y = arg2 + 0*arg1`), forcing a common
missing-value mask.  A numpy shape mismatch in that arithmetic raises
(length-1 broadcasting is not modelled). -/
def _prep_binary (a b : Col) : Except PdErr (Col × Col) :=
  if a.length = b.length then
    Except.ok (List.zipWith (fun x y => v_add x (v_mul (some 0) y)) a b,
               List.zipWith (fun y x => v_add y (v_mul (some 0) x)) b a)
  else Except.error PdErr.shapeMismatch

/-- Source `rolling_cov` on raw columns (the ndarray branch of
`_flex_binary_moment` followed by `_get_cov`): prep the pair, count
jointly-valid cells, and scale the raw covariance by `count/(count-1)`. -/
def rolling_cov (a b : Col) (window : ℕ) (minp : Option ℕ) : Except PdErr Col := do
  let p ← _prep_binary a b
  let count := rolling_count (ladd p.1 p.2) window
  let bias_adj := ldiv count (count.map (fun c => v_sub c (some 1)))
  Except.ok (lmul (lsub (rolling_mean (lmul p.1 p.2) window minp)
                        (lmul (rolling_mean p.1 window minp)
                              (rolling_mean p.2 window minp)))
                  bias_adj)

/-- Source `rolling_corr` on raw columns: `rolling_cov` over the product
of the rolling standard deviations of the prepped operands. -/
def rolling_corr (a b : Col) (window : ℕ) (minp : Option ℕ) : Except PdErr Col := do
  let p ← _prep_binary a b
  let num ← rolling_cov p.1 p.2 window minp
  Except.ok (ldiv num (lmul (rolling_std p.1 window minp)
                            (rolling_std p.2 window minp)))

/-- The iteration order of `rolling_corr_pairwise`: every column paired
with itself and every later column (`for i, k1: for k2 in columns[i:]`). -/
def pairList {A : Type} : List A → List (A × A)
  | [] => []
  | c :: rest => (c :: rest).map (fun c2 => (c, c2)) ++ pairList rest

/-- One step of the pairwise loop body: compute the correlation once and
store it under both `(k1,k2)` and `(k2,k1)`.  Entries are prepended so
that a later Python dict write shadows an earlier one under
`lookupPair`. -/
def pairStep (window : ℕ) (minp : Option ℕ)
    (acc : List ((String × String) × Col))
    (p : (String × Col) × (String × Col)) :
    Except PdErr (List ((String × String) × Col)) := do
  let corr ← rolling_corr p.1.2 p.2.2 window minp
  Except.ok (((p.2.1, p.1.1), corr) :: ((p.1.1, p.2.1), corr) :: acc)

/-- Source `rolling_corr_pairwise`: fold the loop body over the upper
triangle of column pairs. -/
def rolling_corr_pairwise (df : List (String × Col)) (window : ℕ)
    (minp : Option ℕ) : Except PdErr (List ((String × String) × Col)) :=
  (pairList df).foldlM (pairStep window minp) []

/-- Dictionary lookup in the pairwise result (first match = last write). -/
def lookupPair (d : List ((String × String) × Col)) (a b : String) : Option Col :=
  (d.find? (fun e => e.1.1 == a && e.1.2 == b)).map (fun e => e.2)

/-- One scalar entry `M[t][a][b]` of the pairwise structure. -/
def pairEntry (d : List ((String × String) × Col)) (a b : String) (t : ℕ) : Option ℚ :=
  match lookupPair d a b with
  | some col => col.getD t none
  | none => none

/-- Source `_get_center_of_mass`: `com` and `span` are mutually
exclusive, one of them is required, `span` converts via
`com = (span - 1)/2`. -/
def _get_center_of_mass (com span : Option ℚ) : Except PdErr ℚ :=
  match span with
  | some s =>
    match com with
    | some _ => Except.error PdErr.comAndSpan
    | none => Except.ok ((s - 1) / 2)
  | none =>
    match com with
    | none => Except.error PdErr.missingComSpan
    | some c => Except.ok c

/-- One step of the EWMA recursion: a missing input holds the previous
output; the first valid input seeds the state; afterwards
`y = (1-α)·prev + α·x` with `α = 1/(1+com)`. -/
def ewmaStep (alpha : ℚ) (prev x : Option ℚ) : Option ℚ :=
  match x with
  | none => prev
  | some v =>
    match prev with
    | none => some v
    | some p => some ((1 - alpha) * p + alpha * v)

/-- Modelled from the spec: Cython `_tseries.ewma` recursion, run from an
empty state (output is missing before the first valid input). -/
def ewmaGo (alpha : ℚ) (prev : Option ℚ) : Col → Col
  | [] => []
  | x :: xs =>
    let y := ewmaStep alpha prev x
    y :: ewmaGo alpha y xs

/-- Source `_first_valid_index`: `notnull(arr).argmax()` — the index of
the first non-missing cell, 0 when every cell is missing (argmax of an
all-False mask is 0). -/
def _first_valid_index : Col → ℕ
  | [] => 0
  | x :: rest =>
    if x.isSome then 0
    else if rest.any Option.isSome then _first_valid_index rest + 1
    else 0

/-- The warm-up gate of source `ewma`:
`result[first_index : first_index + min_periods] = NaN` (a numpy slice
assignment, clamped at the end of the array). -/
def maskWarmup (res : Col) (fi minp : ℕ) : Col :=
  (List.range res.length).map (fun t =>
    if fi ≤ t ∧ t < fi + minp then none else res.getD t none)

/-- The per-column body `_ewma` of source `ewma`: run the Cython kernel
with `α = 1/(1+com)` and apply the warm-up gate. -/
def ewma_col (c : ℚ) (minp : ℕ) (v : Col) : Col :=
  maskWarmup (ewmaGo (1 / (1 + c)) none v) (_first_valid_index v) minp

/-- Source `ewma` on one raw column: resolve com/span, then run the
gated kernel. -/
def ewma (arg : Col) (com span : Option ℚ) (min_periods : ℕ) :
    Except PdErr Col := do
  let c ← _get_center_of_mass com span
  Except.ok (ewma_col c min_periods arg)

/-- Source `ewmvar` on one raw column: `ewma(x²) - ewma(x)²` with the
resolved `com`; with `bias=False` the Python scalar division
`(1 + 2·com)/(2·com)` raises ZeroDivisionError when `com = 0`. -/
def ewmvar (arg : Col) (com span : Option ℚ) (min_periods : ℕ) (bias : Bool) :
    Except PdErr Col := do
  let c ← _get_center_of_mass com span
  let moment2nd ← ewma (lmul arg arg) (some c) none min_periods
  let moment1st ← ewma arg (some c) none min_periods
  let result := lsub moment2nd (lmul moment1st moment1st)
  if bias then Except.ok result
  else if 2 * c = 0 then Except.error PdErr.zeroDiv
  else Except.ok (lscale ((1 + 2 * c) / (2 * c)) result)

/-- Source `ewmstd`: elementwise `np.sqrt` of `ewmvar`. -/
def ewmstd (arg : Col) (com span : Option ℚ) (min_periods : ℕ) (bias : Bool) :
    Except PdErr Col :=
  (ewmvar arg com span min_periods bias).map (List.map npsqrt)

/-- Source `ewmvol = ewmstd` (module-level alias of the same function). -/
def ewmvol : Col → Option ℚ → Option ℚ → ℕ → Bool → Except PdErr Col :=
  ewmstd

/-- Source `ewmcov` on raw columns: prep the pair, then
`ewma(X·Y) - ewma(X)·ewma(Y)`; with `bias=False` the correction factor is
computed from the RAW `com` argument (a `span`-only call hits arithmetic
on `None` and the `com=0` call divides by zero). -/
def ewmcov (a b : Col) (com span : Option ℚ) (min_periods : ℕ) (bias : Bool) :
    Except PdErr Col := do
  let p ← _prep_binary a b
  let mxy ← ewma (lmul p.1 p.2) com span min_periods
  let mx ← ewma p.1 com span min_periods
  let my ← ewma p.2 com span min_periods
  let result := lsub mxy (lmul mx my)
  if bias then Except.ok result
  else
    match com with
    | none => Except.error PdErr.noneArith
    | some c =>
      if 2 * c = 0 then Except.error PdErr.zeroDiv
      else Except.ok (lscale ((1 + 2 * c) / (2 * c)) result)

/-- Source `ewmcorr` on raw columns: prep the pair, then
`(ewma(X·Y) - ewma(X)·ewma(Y)) / sqrt(ewmvar(X,bias=True)·ewmvar(Y,bias=True))`. -/
def ewmcorr (a b : Col) (com span : Option ℚ) (min_periods : ℕ) :
    Except PdErr Col := do
  let p ← _prep_binary a b
  let mxy ← ewma (lmul p.1 p.2) com span min_periods
  let mx ← ewma p.1 com span min_periods
  let my ← ewma p.2 com span min_periods
  let vx ← ewmvar p.1 com span min_periods true
  let vy ← ewmvar p.2 com span min_periods true
  Except.ok (ldiv (lsub mxy (lmul mx my)) ((lmul vx vy).map npsqrt))

/-- Source `_process_data_structure` input shapes: a raw numeric array, a
Series (values plus index), or a DataFrame (index plus named columns). -/
inductive Shape where
  | raw (vals : Col)
  | series (index : List ℕ) (vals : Col)
  | frame (index : List ℕ) (cols : List (String × Col))
  deriving DecidableEq

/-- The observable shape of a container: kind, logical length, index, and
column names (what the claims call "length, index and column set"). -/
inductive ShapeMeta where
  | raw (n : ℕ)
  | series (index : List ℕ) (n : ℕ)
  | frame (index : List ℕ) (cols : List (String × ℕ))
  deriving DecidableEq

/-- Extract the observable shape. -/
def Shape.meta : Shape → ShapeMeta
  | .raw v => .raw v.length
  | .series i v => .series i v.length
  | .frame i cs => .frame i (cs.map (fun nc => (nc.1, nc.2.length)))

/-- Source `_process_data_structure` + `return_hook` +
`np.apply_along_axis`: run a column transform on the numeric values and
rebuild the original container with its original index and columns. -/
def mapShape (f : Col → Col) : Shape → Shape
  | .raw v => .raw (f v)
  | .series i v => .series i (f v)
  | .frame i cs => .frame i (cs.map (fun nc => (nc.1, f nc.2)))

/-- Elementwise container arithmetic (`arg*arg`, `a - b`, ...), used by the
EWM pipeline only on operands derived from one and the same container,
where pandas alignment is positional; mismatched kinds cannot arise
there and default to the left operand. -/
def zipShape (f : Col → Col → Col) : Shape → Shape → Shape
  | .raw a, .raw b => .raw (f a b)
  | .series i a, .series _ b => .series i (f a b)
  | .frame i cs, .frame _ ds =>
      .frame i (List.zipWith (fun nc nd => (nc.1, f nc.2 nd.2)) cs ds)
  | s, _ => s

/-- Shape-level `ewma` body (per-column gated kernel). -/
def emaShape (c : ℚ) (minp : ℕ) (sh : Shape) : Shape :=
  mapShape (ewma_col c minp) sh

/-- Shape-level source `ewmvar`: container arithmetic around two `ewma`
calls, with the bias-correction factor and its division by zero. -/
def ewmvarShape (sh : Shape) (com span : Option ℚ) (eminp : ℕ) (bias : Bool) :
    Except PdErr Shape := do
  let c ← _get_center_of_mass com span
  let moment2nd := emaShape c eminp (zipShape lmul sh sh)
  let moment1st := emaShape c eminp sh
  let result := zipShape lsub moment2nd (zipShape lmul moment1st moment1st)
  if bias then Except.ok result
  else if 2 * c = 0 then Except.error PdErr.zeroDiv
  else Except.ok (mapShape (lscale ((1 + 2 * c) / (2 * c))) result)

/-- The single-argument operation surface (rolling statistics wired as in
the source registry, plus the unary EWM operations). -/
inductive MomentOp where
  | rsum | rmean | rmax | rmin | rmedian | rvar | rstd | rskew | rkurt | rcount
  | rquantile (q : ℚ)
  | rapply (f : Col → Option ℚ)
  | e_ma
  | e_var (bias : Bool)
  | e_std (bias : Bool)

/-- Dispatch a single-argument operation over a container, exactly as the
public functions do: normalise to columns, run the column statistic,
rebuild the container. -/
def applyMoment (op : MomentOp) (sh : Shape) (window : ℕ) (minp : Option ℕ)
    (com span : Option ℚ) (eminp : ℕ) : Except PdErr Shape :=
  match op with
  | .rsum => Except.ok (mapShape (fun v => rolling_sum v window minp) sh)
  | .rmean => Except.ok (mapShape (fun v => rolling_mean v window minp) sh)
  | .rmax => Except.ok (mapShape (fun v => rolling_max v window minp) sh)
  | .rmin => Except.ok (mapShape (fun v => rolling_min v window minp) sh)
  | .rmedian => Except.ok (mapShape (fun v => rolling_median v window minp) sh)
  | .rvar => Except.ok (mapShape (fun v => rolling_var v window minp) sh)
  | .rstd => Except.ok (mapShape (fun v => rolling_std v window minp) sh)
  | .rskew => Except.ok (mapShape (fun v => rolling_skew v window minp) sh)
  | .rkurt => Except.ok (mapShape (fun v => rolling_kurt v window minp) sh)
  | .rcount => Except.ok (mapShape (fun v => rolling_count v window) sh)
  | .rquantile q => Except.ok (mapShape (fun v => rolling_quantile v window q minp) sh)
  | .rapply f => Except.ok (mapShape (fun v => rolling_apply v window f minp) sh)
  | .e_ma => do
    let c ← _get_center_of_mass com span
    Except.ok (emaShape c eminp sh)
  | .e_var bias => ewmvarShape sh com span eminp bias
  | .e_std bias => (ewmvarShape sh com span eminp bias).map (mapShape (List.map npsqrt))

/-- getD of a tabulated list at an in-range index. -/
theorem getD_range_map {A : Type} (g : ℕ → A) (n t : ℕ) (h : t < n) (d : A) :
    ((List.range n).map g).getD t d = g t := by
  simp [List.getD, List.getElem?_map, List.getElem?_range h]

theorem ewmaGo_length (a : ℚ) (p : Option ℚ) (xs : Col) :
    (ewmaGo a p xs).length = xs.length := by
  induction xs generalizing p with
  | nil => rfl
  | cons x rest ih => simp [ewmaGo, ih]

theorem maskWarmup_length (res : Col) (fi minp : ℕ) :
    (maskWarmup res fi minp).length = res.length := by
  simp [maskWarmup]

theorem ewma_col_length (c : ℚ) (minp : ℕ) (v : Col) :
    (ewma_col c minp v).length = v.length := by
  simp [ewma_col, maskWarmup_length, ewmaGo_length]

theorem roll_sum_length (xs : Col) (w m : ℕ) : (roll_sum xs w m).length = xs.length := by
  simp [roll_sum]

theorem rolling_count_length (xs : Col) (w : ℕ) :
    (rolling_count xs w).length = xs.length := by
  simp [rolling_count, rolling_sum, roll_sum_length]

theorem getD_zipWith (f : Option ℚ → Option ℚ → Option ℚ) :
    ∀ (a b : Col) (i : ℕ), i < a.length → i < b.length →
      (List.zipWith f a b).getD i none = f (a.getD i none) (b.getD i none) := by
  intro a
  induction a with
  | nil => intro b i hi; simp at hi
  | cons x xs ih =>
    intro b i hi hj
    cases b with
    | nil => simp at hj
    | cons y ys =>
      cases i with
      | zero => simp [List.getD]
      | succ k =>
        simp only [List.zipWith_cons_cons, List.getD_cons_succ]
        exact ih ys k (Nat.lt_of_succ_lt_succ hi) (Nat.lt_of_succ_lt_succ hj)

theorem mask_cell (x y : Option ℚ) :
    v_add x (v_mul (some 0) y) = none ↔ x = none ∨ y = none := by
  cases x <;> cases y <;> simp [v_add, v_mul]

/-- Claim C4: after the `_prep_binary` alignment step, a position is
missing in an aligned operand exactly when it is missing in at least one
of the original operands; hence the paired reducer sees a non-missing
value only where both inputs are non-missing. -/
theorem prep_binary_joint_mask (a b X Y : Col) (i : ℕ)
    (h : _prep_binary a b = Except.ok (X, Y)) (hi : i < a.length) :
    (X.getD i none = none ↔ (a.getD i none = none ∨ b.getD i none = none)) ∧
    (Y.getD i none = none ↔ (a.getD i none = none ∨ b.getD i none = none)) := by
  unfold _prep_binary at h
  by_cases hl : a.length = b.length
  · rw [if_pos hl] at h
    injection h with h2
    simp only [Prod.mk.injEq] at h2
    obtain ⟨hX, hY⟩ := h2
    subst hX
    subst hY
    constructor
    · rw [getD_zipWith _ a b i hi (hl ▸ hi)]
      exact mask_cell _ _
    · rw [getD_zipWith _ b a i (hl ▸ hi) hi]
      rw [mask_cell]
      exact or_comm
  · simp [hl] at h

/-- Claim C4 witness: at operands `[1, missing]` and `[missing, 2]`,
position 0 of the aligned left operand is missing iff one of the inputs
is missing there. -/
theorem prep_binary_joint_mask_witness :
    (([none, none] : Col).getD 0 none = none ↔
      (([some 1, none] : Col).getD 0 none = none ∨
       ([none, some 2] : Col).getD 0 none = none)) :=
  (prep_binary_joint_mask [some 1, none] [none, some 2] [none, none] [none, none] 0
    (by norm_num [_prep_binary, v_add, v_mul]) (by norm_num)).1

/-- Claim C10: the exported `ewmvol` is the very same function as
`ewmstd`: on every input column and every com/span, min_periods and bias
configuration the two results are identical. -/
theorem ewmvol_is_ewmstd (a : Col) (com span : Option ℚ) (minp : ℕ) (bias : Bool) :
    ewmvol a com span minp bias = ewmstd a com span minp bias := rfl

theorem getD_map_of_lt {A B : Type} (f : A → B) :
    ∀ (l : List A) (t : ℕ), t < l.length → ∀ (d : B) (d2 : A),
      (l.map f).getD t d = f (l.getD t d2) := by
  intro l
  induction l with
  | nil => intro t ht; simp at ht
  | cons x xs ih =>
    intro t ht d d2
    cases t with
    | zero => simp [List.getD]
    | succ k =>
      simp only [List.map_cons, List.getD_cons_succ]
      exact ih k (Nat.lt_of_succ_lt_succ ht) d d2

theorem windowSlice_map (f : Option ℚ → Option ℚ) (xs : Col) (t w : ℕ) :
    windowSlice (xs.map f) t w = (windowSlice xs t w).map f := by
  simp [windowSlice, List.map_take, List.map_drop]

theorem validVals_map_some (g : Option ℚ → ℚ) (l : Col) :
    validVals (l.map (fun x => some (g x))) = l.map g := by
  induction l with
  | nil => rfl
  | cons x xs ih => simp [validVals, List.filterMap] at ih ⊢; exact ih

theorem validCount_cons_some (v : ℚ) (l : Col) :
    validCount (some v :: l) = validCount l + 1 := by
  simp [validCount, validVals, List.filterMap_cons]

theorem validCount_cons_none (l : Col) :
    validCount (none :: l) = validCount l := by
  simp [validCount, validVals, List.filterMap_cons]

theorem indicator_sum : ∀ l : Col,
    (l.map (fun x => if x.isSome then (1 : ℚ) else 0)).sum = (validCount l : ℚ) := by
  intro l
  induction l with
  | nil => simp [validCount, validVals]
  | cons x xs ih =>
    cases x with
    | none => simp [validCount_cons_none, ih]
    | some v => simp [validCount_cons_some, ih]; ring
theorem roll_sum_getD (xs : Col) (w m t : ℕ) (ht : t < xs.length) :
    (roll_sum xs w m).getD t none =
      if validCount (windowSlice xs t w) < m then none
      else some (validSum (windowSlice xs t w)) := by
  unfold roll_sum
  rw [getD_range_map _ _ t (by simpa using ht)]

/-- Claim C5: `rolling_count` never returns a missing value; the output
at every in-range position is the number of valid observations in the
(length-clamped) trailing window, in particular 0 — not missing — where
the window holds no valid observation.  The count is produced with
`min_periods = 1` hard-wired (the function takes no `min_periods`). -/
theorem rolling_count_never_missing (xs : Col) (W t : ℕ) (ht : t < xs.length) :
    (rolling_count xs W).getD t none =
      some ((validCount (windowSlice xs t (min W xs.length)) : ℚ)) ∧
    (rolling_count xs W).getD t none ≠ none := by
  have hlen : t < (roll_sum (xs.map (fun x => some (if x.isSome then (1 : ℚ) else 0)))
      (min W xs.length) (_use_window (some 1) (min W xs.length))).length := by
    rw [roll_sum_length]; simpa using ht
  have key : (rolling_count xs W).getD t none =
      some ((validCount (windowSlice xs t (min W xs.length)) : ℚ)) := by
    show ((roll_sum (xs.map (fun x => some (if x.isSome then (1 : ℚ) else 0)))
        (min W xs.length) (_use_window (some 1) (min W xs.length))).map
          (fun r => some (r.getD 0))).getD t none =
      some ((validCount (windowSlice xs t (min W xs.length)) : ℚ))
    rw [getD_map_of_lt _ _ t hlen none none]
    rw [roll_sum_getD _ _ _ t (by simpa using ht)]
    rw [windowSlice_map]
    rw [show _use_window (some 1) (min W xs.length) = 1 from rfl]
    have hvc : validCount ((windowSlice xs t (min W xs.length)).map
        (fun x => some (if x.isSome then (1 : ℚ) else 0))) =
        (windowSlice xs t (min W xs.length)).length := by
      rw [validCount, validVals_map_some (fun x => if x.isSome then (1 : ℚ) else 0)]
      simp
    rw [hvc]
    by_cases hc : (windowSlice xs t (min W xs.length)).length < 1
    · rw [if_pos hc]
      have hnil : windowSlice xs t (min W xs.length) = [] :=
        List.eq_nil_of_length_eq_zero (by omega)
      simp [hnil, validCount, validVals]
    · rw [if_neg hc]
      have hvs : validSum ((windowSlice xs t (min W xs.length)).map
          (fun x => some (if x.isSome then (1 : ℚ) else 0))) =
          ((validCount (windowSlice xs t (min W xs.length)) : ℚ)) := by
        rw [validSum, validVals_map_some (fun x => if x.isSome then (1 : ℚ) else 0)]
        exact indicator_sum _
      rw [hvs]
      simp
  exact ⟨key, by rw [key]; simp⟩

theorem roll_var_floor (xs : Col) (w m t : ℕ) (ht : t < xs.length)
    (h : (roll_var xs w m).getD t none ≠ none) :
    m ≤ validCount (windowSlice xs t w) ∧ 2 ≤ validCount (windowSlice xs t w) := by
  unfold roll_var at h
  rw [getD_range_map _ _ t (by simpa using ht)] at h
  simp only [] at h
  split at h
  · exact absurd rfl h
  · next hcond =>
      push_neg at hcond
      omega

theorem roll_skew_floor (xs : Col) (w m t : ℕ) (ht : t < xs.length)
    (h : (roll_skew xs w m).getD t none ≠ none) :
    m ≤ validCount (windowSlice xs t w) ∧ 3 ≤ validCount (windowSlice xs t w) := by
  unfold roll_skew at h
  rw [getD_range_map _ _ t (by simpa using ht)] at h
  simp only [] at h
  split at h
  · exact absurd rfl h
  · next hcond =>
      push_neg at hcond
      omega

theorem roll_kurt_floor (xs : Col) (w m t : ℕ) (ht : t < xs.length)
    (h : (roll_kurt xs w m).getD t none ≠ none) :
    m ≤ validCount (windowSlice xs t w) ∧ 4 ≤ validCount (windowSlice xs t w) := by
  unfold roll_kurt at h
  rw [getD_range_map _ _ t (by simpa using ht)] at h
  simp only [] at h
  split at h
  · exact absurd rfl h
  · next hcond =>
      push_neg at hcond
      omega

theorem roll_var_length (xs : Col) (w m : ℕ) : (roll_var xs w m).length = xs.length := by
  simp [roll_var]

theorem rolling_std_nonmissing (xs : Col) (w : ℕ) (mp : Option ℕ) (t : ℕ)
    (ht : t < xs.length)
    (h : (rolling_std xs w mp).getD t none ≠ none) :
    (roll_var xs w (_require_min_periods 2 mp w)).getD t none ≠ none := by
  intro hnone
  apply h
  unfold rolling_std
  rw [getD_map_of_lt npsqrt _ t (by rw [roll_var_length]; exact ht) none none, hnone]
  rfl

/-- Claim C3: with `min_periods` unset, a non-missing `rolling_var` or
`rolling_std` output needs at least 2 valid observations in its window, a
non-missing `rolling_skew` at least 3, and a non-missing `rolling_kurt`
at least 4 (the statistic-specific floors); every other rolling statistic
defaults an unset `min_periods` to the window size `W`. -/
theorem min_periods_defaults (xs : Col) (W i : ℕ) (hi : i < xs.length)
    (f : Col → Option ℚ) (q : ℚ) :
    ((rolling_var xs W none).getD i none ≠ none →
        2 ≤ validCount (windowSlice xs i W)) ∧
    ((rolling_std xs W none).getD i none ≠ none →
        2 ≤ validCount (windowSlice xs i W)) ∧
    ((rolling_skew xs W none).getD i none ≠ none →
        3 ≤ validCount (windowSlice xs i W)) ∧
    ((rolling_kurt xs W none).getD i none ≠ none →
        4 ≤ validCount (windowSlice xs i W)) ∧
    rolling_sum xs W none = roll_sum xs W W ∧
    rolling_mean xs W none = roll_mean xs W W ∧
    rolling_max xs W none = roll_max xs W W ∧
    rolling_min xs W none = roll_min xs W W ∧
    rolling_median xs W none = roll_median xs W W ∧
    rolling_quantile xs W q none = roll_quantile_kernel xs W W q ∧
    rolling_apply xs W f none = roll_generic xs W W f ∧
    _use_window none W = W := by
  refine ⟨?_, ?_, ?_, ?_, rfl, rfl, rfl, rfl, rfl, rfl, rfl, rfl⟩
  · intro h
    exact (roll_var_floor xs W W i hi h).2
  · intro h
    exact (roll_var_floor xs W W i hi (rolling_std_nonmissing xs W none i hi h)).2
  · intro h
    exact (roll_skew_floor xs W W i hi h).2
  · intro h
    exact (roll_kurt_floor xs W W i hi h).2

/-- Claim C3 witness: instantiated at the two-element column `[1, 2]`
with `W = 2`, position 1. -/
theorem min_periods_defaults_witness :
    ((rolling_var [some 1, some 2] 2 none).getD 1 none ≠ none →
        2 ≤ validCount (windowSlice [some 1, some 2] 1 2)) ∧
    ((rolling_std [some 1, some 2] 2 none).getD 1 none ≠ none →
        2 ≤ validCount (windowSlice [some 1, some 2] 1 2)) ∧
    ((rolling_skew [some 1, some 2] 2 none).getD 1 none ≠ none →
        3 ≤ validCount (windowSlice [some 1, some 2] 1 2)) ∧
    ((rolling_kurt [some 1, some 2] 2 none).getD 1 none ≠ none →
        4 ≤ validCount (windowSlice [some 1, some 2] 1 2)) ∧
    rolling_sum [some 1, some 2] 2 none = roll_sum [some 1, some 2] 2 2 ∧
    rolling_mean [some 1, some 2] 2 none = roll_mean [some 1, some 2] 2 2 ∧
    rolling_max [some 1, some 2] 2 none = roll_max [some 1, some 2] 2 2 ∧
    rolling_min [some 1, some 2] 2 none = roll_min [some 1, some 2] 2 2 ∧
    rolling_median [some 1, some 2] 2 none = roll_median [some 1, some 2] 2 2 ∧
    rolling_quantile [some 1, some 2] 2 0 none = roll_quantile_kernel [some 1, some 2] 2 2 0 ∧
    rolling_apply [some 1, some 2] 2 (fun _ => none) none =
      roll_generic [some 1, some 2] 2 2 (fun _ => none) ∧
    _use_window none 2 = 2 :=
  min_periods_defaults [some 1, some 2] 2 1 (by norm_num) (fun _ => none) 0

/-- Claim C5 witness: at `[missing, 2, missing]` with window 2,
position 0 (an all-missing window) the count is defined. -/
theorem rolling_count_never_missing_witness :
    (rolling_count [none, some 2, none] 2).getD 0 none =
      some ((validCount (windowSlice [none, some 2, none] 0
        (min 2 ([none, some 2, none] : Col).length)) : ℚ)) ∧
    (rolling_count [none, some 2, none] 2).getD 0 none ≠ none :=
  rolling_count_never_missing [none, some 2, none] 2 0 (by norm_num)

theorem get?_range_map {A : Type} (g : ℕ → A) (n t : ℕ) (h : t < n) :
    ((List.range n).map g).get? t = some (g t) := by
  simp [List.get?_eq_getElem?, List.getElem?_map, List.getElem?_range h]
theorem ewmaGo_first_valid (a : ℚ) : ∀ (xs : Col) (v : ℚ),
    xs.get? (_first_valid_index xs) = some (some v) →
    (ewmaGo a none xs).get? (_first_valid_index xs) = some (some v) := by
  intro xs
  induction xs with
  | nil => intro v hv; simp at hv
  | cons x rest ih =>
    intro v hv
    cases x with
    | some u =>
      simp only [_first_valid_index, Option.isSome_some, if_true] at hv ⊢
      simp only [List.get?] at hv
      injection hv with hv2
      simp [ewmaGo, ewmaStep, hv2]
    | none =>
      by_cases hany : rest.any Option.isSome
      · simp only [_first_valid_index, Option.isSome_none, Bool.false_eq_true,
          if_false, hany, if_true] at hv ⊢
        simp only [List.get?] at hv
        simp only [ewmaGo, ewmaStep, List.get?]
        exact ih v hv
      · simp only [_first_valid_index, Option.isSome_none, Bool.false_eq_true,
          if_false, hany, List.get?] at hv
        exact absurd hv (by simp)

theorem ewma_col_get? (c : ℚ) (minp : ℕ) (xs : Col) (t : ℕ) (ht : t < xs.length) :
    (ewma_col c minp xs).get? t =
      some (if _first_valid_index xs ≤ t ∧ t < _first_valid_index xs + minp
            then none
            else (ewmaGo (1 / (1 + c)) none xs).getD t none) := by
  unfold ewma_col maskWarmup
  rw [get?_range_map _ _ t (by rw [ewmaGo_length]; exact ht)]

/-- Claim C1 (amended): with a valid `com`, `ewma` forces exactly the
first `min_periods` outputs (not `min_periods - 1`) starting at the first
valid index to missing — every position in `[first_valid,
first_valid + min_periods)` is missing, every other position carries the
unmasked recursion value — so `y[first_valid] = x[first_valid]` holds for
`min_periods = 0` (the default) but not for `min_periods = 1`. -/
theorem ewma_warmup_gate (xs : Col) (c : ℚ) (minp : ℕ) (ys : Col)
    (h : ewma xs (some c) none minp = Except.ok ys) :
    ys.length = xs.length ∧
    (∀ t, t < xs.length → _first_valid_index xs ≤ t →
        t < _first_valid_index xs + minp → ys.get? t = some none) ∧
    (∀ t, t < xs.length →
        (t < _first_valid_index xs ∨ _first_valid_index xs + minp ≤ t) →
        ys.get? t = some ((ewmaGo (1 / (1 + c)) none xs).getD t none)) ∧
    (minp = 0 → ∀ v, xs.get? (_first_valid_index xs) = some (some v) →
        ys.get? (_first_valid_index xs) = some (some v)) := by
  have hys : ys = ewma_col c minp xs := by
    have h0 : ewma xs (some c) none minp = Except.ok (ewma_col c minp xs) := rfl
    rw [h0] at h
    injection h with h2
    exact h2.symm
  subst hys
  refine ⟨ewma_col_length c minp xs, ?_, ?_, ?_⟩
  · intro t ht h1 h2
    rw [ewma_col_get? c minp xs t ht, if_pos ⟨h1, h2⟩]
  · intro t ht hout
    rw [ewma_col_get? c minp xs t ht, if_neg (by omega)]
  · intro hm v hv
    subst hm
    obtain ⟨hfv, _⟩ := List.get?_eq_some.mp hv
    have hker := ewmaGo_first_valid (1 / (1 + c)) xs v hv
    rw [ewma_col_get? c 0 xs _ hfv, if_neg (by omega)]
    have h3 : (ewmaGo (1 / (1 + c)) none xs).getD (_first_valid_index xs) none = some v := by
      rw [List.getD_eq_getElem?_getD, ← List.get?_eq_getElem?, hker]
      rfl
    rw [h3]

/-- Claim C1 counterexample: at input `[1.0]` with `com = 1` and
`min_periods = 1`, the output at the first valid position is missing,
not `x[first_valid] = 1`: the gate blanks `min_periods` positions, one
more than the claimed `min_periods - 1`. -/
theorem ewma_warmup_cex :
    ewma [some 1] (some 1) none 1 = Except.ok [none] ∧
    (none : Option ℚ) ≠ some 1 := ⟨rfl, by simp⟩

/-- Claim C1 witness: at `[1, 2]`, `com = 1`, `min_periods = 1`, the
first output position (the first valid index) is masked to missing. -/
theorem ewma_warmup_gate_witness :
    ([none, some (3 / 2)] : Col).get? 0 = some none :=
  (ewma_warmup_gate [some 1, some 2] 1 1 [none, some (3 / 2)]
      (by norm_num [ewma, _get_center_of_mass, bind, Except.bind, ewma_col,
        maskWarmup, ewmaGo, ewmaStep, _first_valid_index, List.range_succ])).2.1
    0 (by norm_num)
    (by decide) (by decide)

/-- Claim C2 (amended): with a resolved center of mass `c`, `ewmvar` with
`bias = False` equals `(ewma(x·x) - ewma(x)²)`, elementwise scaled by
`(1 + 2c)/(2c)`, whenever `c ≠ 0`; at `c = 0` the Python scalar division
in the correction factor raises a division-by-zero error instead of
propagating an IEEE infinity through the output. -/
theorem ewmvar_formula (xs : Col) (com span : Option ℚ) (minp : ℕ) (c : ℚ)
    (h : _get_center_of_mass com span = Except.ok c) :
    (c ≠ 0 → ewmvar xs com span minp false = (do
        let m2 ← ewma (lmul xs xs) com span minp
        let m1 ← ewma xs com span minp
        Except.ok (lscale ((1 + 2 * c) / (2 * c)) (lsub m2 (lmul m1 m1))))) ∧
    (c = 0 → ewmvar xs com span minp false = Except.error PdErr.zeroDiv) := by
  constructor
  · intro hc
    have h2c : ¬ (2 * c = 0) := by
      intro h0
      rcases mul_eq_zero.mp h0 with h2 | h2
      · norm_num at h2
      · exact hc h2
    unfold ewmvar ewma
    rw [h]
    simp only [bind, Except.bind, _get_center_of_mass, Bool.false_eq_true,
      if_false, if_neg h2c]
  · intro hc
    subst hc
    unfold ewmvar ewma
    rw [h]
    simp only [bind, Except.bind, _get_center_of_mass, Bool.false_eq_true,
      if_false, mul_zero]
    simp

/-- Claim C2 counterexample: `ewmvar` at `com = 0` with `bias = False`
raises the division-by-zero error; no IEEE Inf/NaN output is produced. -/
theorem ewmvar_com_zero_cex :
    ewmvar [some 1, some 2] (some 0) none 0 false = Except.error PdErr.zeroDiv ∧
    (Except.error PdErr.zeroDiv : Except PdErr Col) ≠
      Except.ok [none, some (9 / 8)] := by
  constructor
  · simp only [ewmvar, ewma, _get_center_of_mass, bind, Except.bind,
      Bool.false_eq_true, if_false, mul_zero]
    simp
  · simp

/-- Claim C2 witness: the formula at `com = 1`, input `[1, 2]`. -/
theorem ewmvar_formula_witness :
    ewmvar [some 1, some 2] (some 1) none 0 false = (do
        let m2 ← ewma (lmul [some 1, some 2] [some 1, some 2]) (some 1) none 0
        let m1 ← ewma [some 1, some 2] (some 1) none 0
        Except.ok (lscale ((1 + 2 * 1) / (2 * 1)) (lsub m2 (lmul m1 m1)))) :=
  (ewmvar_formula [some 1, some 2] (some 1) none 0 1 rfl).1 (by norm_num)

/-- Claim C6 (amended): all five EWM operations fail with the
mutual-exclusion error when both `com` and `span` are given and with the
missing-parameter error when neither is; `ewma`, `ewmvar` and `ewmstd`
validate before touching the data, but `ewmcov` and `ewmcorr` run
`_prep_binary` on the operands first, so their configuration error is
raised only for operands that pass the alignment arithmetic (equal
lengths) and an operand shape error preempts it. -/
theorem ewm_config_errors (xs ys : Col) (c s : ℚ) (minp : ℕ) (bias : Bool)
    (h : xs.length = ys.length) :
    ewma xs (some c) (some s) minp = Except.error PdErr.comAndSpan ∧
    ewma xs none none minp = Except.error PdErr.missingComSpan ∧
    ewmvar xs (some c) (some s) minp bias = Except.error PdErr.comAndSpan ∧
    ewmvar xs none none minp bias = Except.error PdErr.missingComSpan ∧
    ewmstd xs (some c) (some s) minp bias = Except.error PdErr.comAndSpan ∧
    ewmstd xs none none minp bias = Except.error PdErr.missingComSpan ∧
    ewmcov xs ys (some c) (some s) minp bias = Except.error PdErr.comAndSpan ∧
    ewmcov xs ys none none minp bias = Except.error PdErr.missingComSpan ∧
    ewmcorr xs ys (some c) (some s) minp = Except.error PdErr.comAndSpan ∧
    ewmcorr xs ys none none minp = Except.error PdErr.missingComSpan := by
  refine ⟨rfl, rfl, rfl, rfl, rfl, rfl, ?_, ?_, ?_, ?_⟩ <;>
    simp [ewmcov, ewmcorr, _prep_binary, h, ewma, _get_center_of_mass,
      bind, Except.bind]

/-- Claim C6 counterexample: `ewmcov` called with BOTH `com` and `span`
on mismatched-length raw operands raises the operand shape error, not the
configuration error — the configuration check does not run at call entry
before operand arithmetic. -/
theorem ewm_config_errors_cex :
    ewmcov [some 1, some 2] [some 1, some 2, some 3] (some 1) (some 2) 0 false =
      Except.error PdErr.shapeMismatch ∧
    PdErr.shapeMismatch ≠ PdErr.comAndSpan := by
  constructor
  · simp [ewmcov, _prep_binary, bind, Except.bind]
  · simp

/-- Claim C6 witness: the ten error equations at `xs = [1]`, `ys = [2]`,
`com = 1`, `span = 2`, `min_periods = 0`, `bias = False`. -/
theorem ewm_config_errors_witness :
    ewma [some 1] (some 1) (some 2) 0 = Except.error PdErr.comAndSpan ∧
    ewma [some 1] none none 0 = Except.error PdErr.missingComSpan ∧
    ewmvar [some 1] (some 1) (some 2) 0 false = Except.error PdErr.comAndSpan ∧
    ewmvar [some 1] none none 0 false = Except.error PdErr.missingComSpan ∧
    ewmstd [some 1] (some 1) (some 2) 0 false = Except.error PdErr.comAndSpan ∧
    ewmstd [some 1] none none 0 false = Except.error PdErr.missingComSpan ∧
    ewmcov [some 1] [some 2] (some 1) (some 2) 0 false = Except.error PdErr.comAndSpan ∧
    ewmcov [some 1] [some 2] none none 0 false = Except.error PdErr.missingComSpan ∧
    ewmcorr [some 1] [some 2] (some 1) (some 2) 0 = Except.error PdErr.comAndSpan ∧
    ewmcorr [some 1] [some 2] none none 0 = Except.error PdErr.missingComSpan :=
  ewm_config_errors [some 1] [some 2] 1 2 0 false rfl

/-- Claim C7 (amended): `ewmcorr(x,y)` equals the BIASED covariance
`ewmcov(x,y,bias=True)` divided elementwise by
`sqrt(ewmvar(X,bias=True) · ewmvar(Y,bias=True))` where `X,Y` are the
jointly-masked aligned operands produced by `_prep_binary` — not the
default (bias-corrected) `ewmcov` and not `ewmvar` of the raw inputs. -/
theorem ewmcorr_refactor (a b : Col) (com span : Option ℚ) (minp : ℕ) :
    ewmcorr a b com span minp = (do
      let p ← _prep_binary a b
      let cov ← ewmcov a b com span minp true
      let vx ← ewmvar p.1 com span minp true
      let vy ← ewmvar p.2 com span minp true
      Except.ok (ldiv cov ((lmul vx vy).map npsqrt))) := by
  by_cases hl : a.length = b.length
  · cases com <;> cases span <;>
      simp [ewmcorr, ewmcov, ewmvar, ewma, _prep_binary, hl,
        _get_center_of_mass, bind, Except.bind]
  · simp [ewmcorr, ewmcov, _prep_binary, hl, bind, Except.bind]

/-- Claim C7 counterexample: at `x = y = [1, 2]`, `com = 1`,
`min_periods = 0`, `ewmcorr` yields `[NaN, 1]` while the claimed
`ewmcov(x,y) / sqrt(ewmvar(x,bias=True)·ewmvar(y,bias=True))` (with
`ewmcov` at its default `bias=False`) yields `[NaN, 3/2]`: the two
differ by the bias-correction factor `(1+2·com)/(2·com) = 3/2`. -/
theorem ewmcorr_refactor_cex :
    ewmcorr [some 1, some 2] [some 1, some 2] (some 1) none 0 =
      Except.ok [none, some 1] ∧
    (do
      let cov ← ewmcov [some 1, some 2] [some 1, some 2] (some 1) none 0 false
      let vx ← ewmvar [some 1, some 2] (some 1) none 0 true
      let vy ← ewmvar [some 1, some 2] (some 1) none 0 true
      Except.ok (ldiv cov ((lmul vx vy).map npsqrt))) =
      Except.ok [none, some (3 / 2)] ∧
    (Except.ok [none, some 1] : Except PdErr Col) ≠
      Except.ok [none, some (3 / 2)] := by
  refine ⟨?_, ?_, by norm_num⟩
  · norm_num [ewmcorr, ewmvar, ewma, _prep_binary, _get_center_of_mass,
      bind, Except.bind, ewma_col, maskWarmup, ewmaGo, ewmaStep,
      _first_valid_index, List.range_succ, lmul, lsub, ldiv, v_mul, v_sub,
      v_add, v_div, npsqrt, ratSqrt, ewmcov]
  · norm_num [ewmcov, ewmvar, ewma, _prep_binary, _get_center_of_mass,
      bind, Except.bind, ewma_col, maskWarmup, ewmaGo, ewmaStep,
      _first_valid_index, List.range_succ, lmul, lsub, ldiv, lscale, v_mul,
      v_sub, v_add, v_div, npsqrt, ratSqrt]

/-- The pairwise dictionary is symmetric under key swap. -/
def SwapClosed (d : List ((String × String) × Col)) : Prop :=
  ∀ a b, lookupPair d a b = lookupPair d b a

theorem lookupPair_cons (k : String × String) (v : Col)
    (d : List ((String × String) × Col)) (a b : String) :
    lookupPair ((k, v) :: d) a b =
      if k.1 = a ∧ k.2 = b then some v else lookupPair d a b := by
  by_cases h : k.1 = a ∧ k.2 = b
  · obtain ⟨h1, h2⟩ := h
    subst h1
    subst h2
    simp [lookupPair, List.find?]
  · rw [if_neg h]
    unfold lookupPair
    rw [List.find?_cons_of_neg]
    simp only [beq_iff_eq, Bool.and_eq_true, not_and]
    intro h1 h2
    exact h ⟨h1, h2⟩

theorem swapClosed_nil : SwapClosed [] := by
  intro a b
  rfl

theorem swapClosed_cons2 (k1 k2 : String) (c : Col)
    (d : List ((String × String) × Col)) (h : SwapClosed d) :
    SwapClosed (((k2, k1), c) :: ((k1, k2), c) :: d) := by
  intro a b
  rw [lookupPair_cons, lookupPair_cons, lookupPair_cons, lookupPair_cons]
  by_cases hC1 : k2 = a ∧ k1 = b
  · rw [if_pos hC1]
    by_cases hD1 : k2 = b ∧ k1 = a
    · rw [if_pos hD1]
    · rw [if_neg hD1, if_pos ⟨hC1.2, hC1.1⟩]
  · rw [if_neg hC1]
    by_cases hC2 : k1 = a ∧ k2 = b
    · rw [if_pos hC2, if_pos ⟨hC2.2, hC2.1⟩]
    · rw [if_neg hC2]
      rw [if_neg (fun hD1 => hC2 ⟨hD1.2, hD1.1⟩),
          if_neg (fun hD2 => hC1 ⟨hD2.2, hD2.1⟩)]
      exact h a b

theorem pairwise_fold_swapClosed (w : ℕ) (minp : Option ℕ) :
    ∀ (ps : List ((String × Col) × (String × Col)))
      (acc d : List ((String × String) × Col)),
      SwapClosed acc → ps.foldlM (pairStep w minp) acc = Except.ok d →
      SwapClosed d := by
  intro ps
  induction ps with
  | nil =>
    intro acc d hacc hf
    simp only [List.foldlM_nil] at hf
    injection hf with hf2
    rwa [← hf2]
  | cons p ps ih =>
    intro acc d hacc hf
    rw [List.foldlM_cons] at hf
    cases hc : rolling_corr p.1.2 p.2.2 w minp with
    | error e =>
      have hstep : pairStep w minp acc p = Except.error e := by
        simp [pairStep, hc, bind, Except.bind]
      rw [hstep] at hf
      simp [bind, Except.bind] at hf
    | ok c =>
      have hstep : pairStep w minp acc p =
          Except.ok (((p.2.1, p.1.1), c) :: ((p.1.1, p.2.1), c) :: acc) := by
        simp [pairStep, hc, bind, Except.bind]
      rw [hstep] at hf
      simp only [bind, Except.bind] at hf
      exact ih _ d (swapClosed_cons2 p.1.1 p.2.1 c acc hacc) hf

/-- Claim C8: a successful `rolling_corr_pairwise` result is symmetric in
its two column axes at every time step: `M[t][i][j] = M[t][j][i]`,
because each unordered pair is computed once (upper triangle) and the
same correlation column is stored under both key orders. -/
theorem rolling_corr_pairwise_symm (df : List (String × Col)) (w : ℕ)
    (minp : Option ℕ) (d : List ((String × String) × Col))
    (h : rolling_corr_pairwise df w minp = Except.ok d) :
    ∀ (t : ℕ) (n1 n2 : String), pairEntry d n1 n2 t = pairEntry d n2 n1 t := by
  intro t n1 n2
  have hsc : SwapClosed d :=
    pairwise_fold_swapClosed w minp (pairList df) [] d swapClosed_nil h
  unfold pairEntry
  rw [hsc n1 n2]
theorem pw_prep : _prep_binary [some 1] [some 1] = Except.ok ([some 1], [some 1]) := by
  norm_num [_prep_binary, v_add, v_mul]

theorem pw_count : rolling_count [some (2 : ℚ)] 1 = [some 1] := by
  norm_num [rolling_count, rolling_sum, roll_sum, _use_window, windowSlice,
    validCount, validVals, validSum, List.range_succ, List.filterMap_cons,
    List.filterMap_nil, Option.getD, Option.some_ne_none, ne_eq,
    reduceCtorEq]

theorem pw_mean : rolling_mean [some (1 : ℚ)] 1 none = [some 1] := by
  norm_num [rolling_mean, roll_mean, _use_window, windowSlice, validCount,
    validVals, listMean, List.range_succ, List.filterMap_cons,
    List.filterMap_nil, Option.some_ne_none, ne_eq, reduceCtorEq]

theorem pw_cov : rolling_cov [some 1] [some 1] 1 none = Except.ok [none] := by
  rw [rolling_cov, pw_prep]
  simp only [bind, Except.bind]
  norm_num [ladd, v_add, pw_count, pw_mean, ldiv, lmul, lsub, v_div, v_mul,
    v_sub]

theorem pw_std : rolling_std [some (1 : ℚ)] 1 none = [none] := by
  norm_num [rolling_std, roll_var, _require_min_periods, windowSlice,
    validCount, validVals, List.range_succ, npsqrt, List.filterMap_cons,
    List.filterMap_nil]

theorem pw_corr : rolling_corr [some 1] [some 1] 1 none = Except.ok [none] := by
  rw [rolling_corr, pw_prep]
  simp only [bind, Except.bind]
  rw [pw_cov]
  norm_num [pw_std, ldiv, lmul, v_div, v_mul]

theorem pw_eval :
    rolling_corr_pairwise [("a", [some 1])] 1 none =
      Except.ok [(("a", "a"), [none]), (("a", "a"), [none])] := by
  rw [rolling_corr_pairwise]
  norm_num [pairList, List.foldlM, pairStep, pw_corr, bind, Except.bind,
    pure, Except.pure]

/-- Claim C8 witness: the single-column table `{a: [1]}` with window 1
produces a symmetric pairwise structure. -/
theorem rolling_corr_pairwise_symm_witness :
    pairEntry [(("a", "a"), [none]), (("a", "a"), [none])] "a" "a" 0 =
      pairEntry [(("a", "a"), [none]), (("a", "a"), [none])] "a" "a" 0 :=
  rolling_corr_pairwise_symm [("a", [some 1])] 1 none
    [(("a", "a"), [none]), (("a", "a"), [none])] pw_eval 0 "a" "a"

theorem roll_mean_length (xs : Col) (w m : ℕ) : (roll_mean xs w m).length = xs.length := by
  simp [roll_mean]

theorem roll_skew_length (xs : Col) (w m : ℕ) : (roll_skew xs w m).length = xs.length := by
  simp [roll_skew]

theorem roll_kurt_length (xs : Col) (w m : ℕ) : (roll_kurt xs w m).length = xs.length := by
  simp [roll_kurt]

theorem roll_max_length (xs : Col) (w m : ℕ) : (roll_max xs w m).length = xs.length := by
  simp [roll_max]

theorem roll_min_length (xs : Col) (w m : ℕ) : (roll_min xs w m).length = xs.length := by
  simp [roll_min]

theorem roll_quantile_kernel_length (xs : Col) (w m : ℕ) (q : ℚ) :
    (roll_quantile_kernel xs w m q).length = xs.length := by
  simp [roll_quantile_kernel]

theorem roll_generic_length (xs : Col) (w m : ℕ) (f : Col → Option ℚ) :
    (roll_generic xs w m f).length = xs.length := by
  simp [roll_generic]

theorem lsub_length (a b : Col) : (lsub a b).length = min a.length b.length := by
  simp [lsub]

theorem lmul_length (a b : Col) : (lmul a b).length = min a.length b.length := by
  simp [lmul]

theorem lscale_length (k : ℚ) (a : Col) : (lscale k a).length = a.length := by
  simp [lscale]

theorem mapShape_meta (f : Col → Col) (hf : ∀ v, (f v).length = v.length)
    (sh : Shape) : (mapShape f sh).meta = sh.meta := by
  cases sh with
  | raw v => simp [mapShape, Shape.meta, hf]
  | series i v => simp [mapShape, Shape.meta, hf]
  | frame i cs =>
    simp only [mapShape, Shape.meta, List.map_map, ShapeMeta.frame.injEq,
      true_and]
    exact List.map_congr_left (fun nc _ => by simp [Function.comp, hf])

theorem zip_cols_meta (f : Col → Col → Col)
    (hf : ∀ x y, (f x y).length = min x.length y.length) :
    ∀ (cs ds : List (String × Col)),
      cs.map (fun nc => (nc.1, nc.2.length)) = ds.map (fun nc => (nc.1, nc.2.length)) →
      (List.zipWith (fun nc nd => (nc.1, f nc.2 nd.2)) cs ds).map
          (fun nc => (nc.1, nc.2.length)) =
        cs.map (fun nc => (nc.1, nc.2.length)) := by
  intro cs
  induction cs with
  | nil => intro ds h; simp
  | cons c cs2 ih =>
    intro ds h
    cases ds with
    | nil => simp at h
    | cons dd ds2 =>
      simp only [List.map_cons, List.cons.injEq, Prod.mk.injEq] at h
      obtain ⟨⟨hn, hl⟩, h2⟩ := h
      simp only [List.zipWith_cons_cons, List.map_cons, List.cons.injEq,
        Prod.mk.injEq, true_and]
      refine ⟨?_, ih ds2 h2⟩
      rw [hf, ← hl, min_self]

theorem zipShape_meta (f : Col → Col → Col)
    (hf : ∀ x y, (f x y).length = min x.length y.length)
    (a b : Shape) (hab : a.meta = b.meta) :
    (zipShape f a b).meta = a.meta := by
  cases a with
  | raw x =>
    cases b with
    | raw y =>
      simp only [Shape.meta, ShapeMeta.raw.injEq] at hab
      simp [zipShape, Shape.meta, hf, hab]
    | series i y => rfl
    | frame i cs => rfl
  | series ia x =>
    cases b with
    | raw y => rfl
    | series ib y =>
      simp only [Shape.meta, ShapeMeta.series.injEq] at hab
      simp [zipShape, Shape.meta, hf, hab.2]
    | frame i cs => rfl
  | frame ia cs =>
    cases b with
    | raw y => rfl
    | series i y => rfl
    | frame ib ds =>
      simp only [Shape.meta, ShapeMeta.frame.injEq] at hab
      simp only [zipShape, Shape.meta, ShapeMeta.frame.injEq, true_and]
      exact zip_cols_meta f hf cs ds hab.2

theorem emaShape_meta (c : ℚ) (minp : ℕ) (sh : Shape) :
    (emaShape c minp sh).meta = sh.meta :=
  mapShape_meta _ (fun v => ewma_col_length c minp v) sh

theorem ewmvarShape_meta (sh : Shape) (com span : Option ℚ) (eminp : ℕ)
    (bias : Bool) (out : Shape)
    (h : ewmvarShape sh com span eminp bias = Except.ok out) :
    out.meta = sh.meta := by
  unfold ewmvarShape at h
  cases hg : _get_center_of_mass com span with
  | error e => rw [hg] at h; simp [bind, Except.bind] at h
  | ok c =>
    rw [hg] at h
    simp only [bind, Except.bind] at h
    have hm2 : (emaShape c eminp (zipShape lmul sh sh)).meta = sh.meta := by
      rw [emaShape_meta]
      exact zipShape_meta lmul lmul_length sh sh rfl
    have hm1 : (emaShape c eminp sh).meta = sh.meta := emaShape_meta c eminp sh
    have hsq : (zipShape lmul (emaShape c eminp sh)
        (emaShape c eminp sh)).meta = sh.meta := by
      rw [zipShape_meta lmul lmul_length _ _ rfl]
      exact hm1
    have hres : (zipShape lsub (emaShape c eminp (zipShape lmul sh sh))
        (zipShape lmul (emaShape c eminp sh) (emaShape c eminp sh))).meta
        = sh.meta := by
      rw [zipShape_meta lsub lsub_length _ _ (hm2.trans hsq.symm)]
      exact hm2
    cases bias with
    | true =>
      simp only [if_true] at h
      injection h with h2
      rw [← h2]
      exact hres
    | false =>
      simp only [Bool.false_eq_true, if_false] at h
      by_cases hz : 2 * c = 0
      · rw [if_pos hz] at h
        exact absurd h (by simp)
      · rw [if_neg hz] at h
        injection h with h2
        rw [← h2]
        rw [mapShape_meta _ (fun v => lscale_length _ v) _]
        exact hres

/-- Claim C9: every single-argument operation (rolling statistics,
`rolling_count`, `ewma`, `ewmvar`, `ewmstd`), on every supported input
shape (raw array, Series, DataFrame) and every window or EWM spec,
produces — when it returns — an output of exactly the input length that
carries the input index and, for a table, the same column set. -/
theorem moment_preserves_shape (op : MomentOp) (sh : Shape) (window : ℕ)
    (minp : Option ℕ) (com span : Option ℚ) (eminp : ℕ) (out : Shape)
    (h : applyMoment op sh window minp com span eminp = Except.ok out) :
    out.meta = sh.meta := by
  cases op with
  | rsum =>
    simp only [applyMoment] at h
    injection h with h2
    rw [← h2]
    exact mapShape_meta _ (fun v => by simp [rolling_sum, roll_sum_length]) sh
  | rmean =>
    simp only [applyMoment] at h
    injection h with h2
    rw [← h2]
    exact mapShape_meta _ (fun v => by simp [rolling_mean, roll_mean_length]) sh
  | rmax =>
    simp only [applyMoment] at h
    injection h with h2
    rw [← h2]
    exact mapShape_meta _ (fun v => by simp [rolling_max, roll_max_length]) sh
  | rmin =>
    simp only [applyMoment] at h
    injection h with h2
    rw [← h2]
    exact mapShape_meta _ (fun v => by simp [rolling_min, roll_min_length]) sh
  | rmedian =>
    simp only [applyMoment] at h
    injection h with h2
    rw [← h2]
    exact mapShape_meta _
      (fun v => by simp [rolling_median, roll_median, roll_quantile_kernel_length]) sh
  | rvar =>
    simp only [applyMoment] at h
    injection h with h2
    rw [← h2]
    exact mapShape_meta _ (fun v => by simp [rolling_var, roll_var_length]) sh
  | rstd =>
    simp only [applyMoment] at h
    injection h with h2
    rw [← h2]
    exact mapShape_meta _
      (fun v => by simp [rolling_std, roll_var_length]) sh
  | rskew =>
    simp only [applyMoment] at h
    injection h with h2
    rw [← h2]
    exact mapShape_meta _ (fun v => by simp [rolling_skew, roll_skew_length]) sh
  | rkurt =>
    simp only [applyMoment] at h
    injection h with h2
    rw [← h2]
    exact mapShape_meta _ (fun v => by simp [rolling_kurt, roll_kurt_length]) sh
  | rcount =>
    simp only [applyMoment] at h
    injection h with h2
    rw [← h2]
    exact mapShape_meta _ (fun v => rolling_count_length v window) sh
  | rquantile q =>
    simp only [applyMoment] at h
    injection h with h2
    rw [← h2]
    exact mapShape_meta _
      (fun v => by simp [rolling_quantile, roll_quantile_kernel_length]) sh
  | rapply f =>
    simp only [applyMoment] at h
    injection h with h2
    rw [← h2]
    exact mapShape_meta _ (fun v => by simp [rolling_apply, roll_generic_length]) sh
  | e_ma =>
    simp only [applyMoment] at h
    cases hg : _get_center_of_mass com span with
    | error e => rw [hg] at h; simp [bind, Except.bind] at h
    | ok c =>
      rw [hg] at h
      simp only [bind, Except.bind] at h
      injection h with h2
      rw [← h2]
      exact emaShape_meta c eminp sh
  | e_var bias =>
    simp only [applyMoment] at h
    exact ewmvarShape_meta sh com span eminp bias out h
  | e_std bias =>
    simp only [applyMoment] at h
    cases hv : ewmvarShape sh com span eminp bias with
    | error e => rw [hv] at h; simp [Except.map] at h
    | ok r =>
      rw [hv] at h
      simp only [Except.map] at h
      injection h with h2
      rw [← h2]
      rw [mapShape_meta _ (fun v => by simp) r]
      exact ewmvarShape_meta sh com span eminp bias r hv

/-- Claim C9 witness: `rolling_sum` on the Series `[1, 2]` with index
`[7, 8]`, window 2, keeps length and index. -/
theorem moment_preserves_shape_witness :
    (Shape.series [7, 8] [none, some 3]).meta =
      (Shape.series [7, 8] [some 1, some 2]).meta :=
  moment_preserves_shape MomentOp.rsum (Shape.series [7, 8] [some 1, some 2])
    2 none none none 0 (Shape.series [7, 8] [none, some 3])
    (by norm_num [applyMoment, mapShape, rolling_sum, roll_sum, _use_window,
      windowSlice, validCount, validVals, validSum, List.range_succ,
      List.filterMap_cons, List.filterMap_nil])
